import Mathlib

/-!
Verification of the reserves anonymizer (src/anonymize_reserves.py).

The script reads a JSON document (a top-level array of room records),
collects every entry title, assigns each unique title a bijective
base-26 label (A, B, ..., Z, AA, ...), and rewrites the document with
titles replaced by labels.

The embedding below models JSON values as the inductive type `JVal`
(Python dicts become association lists with unique keys and insertion
order, as produced by `json.load`), and models the fallible dynamic
operations used by the script (`in`, subscription, `dict()`, `.get`,
iteration, `sorted`) as `Except PyErr` computations that mirror the
Python semantics on the shapes the script can encounter.
-/

/-- JSON values, as parsed by `json.load`: null, booleans, numbers,
strings, arrays, objects.  Objects are association lists of string keys
in insertion order, matching Python dicts produced by the json module.
Numbers are modelled as integers; no claim depends on float payloads. -/
inductive JVal where
  | null
  | bool (b : Bool)
  | num (n : Int)
  | str (s : String)
  | arr (elems : List JVal)
  | obj (fields : List (String × JVal))

mutual

/-- Structural equality of JSON values, modelling Python `==` on the
values the script compares (scalars never compare equal across
constructors, matching Python for the string/None/container mixes that
can reach a title comparison). -/
def JVal.beq : JVal → JVal → Bool
  | .null, .null => true
  | .bool a, .bool b => a == b
  | .num a, .num b => a == b
  | .str a, .str b => a == b
  | .arr as, .arr bs => JVal.beqArr as bs
  | .obj as, .obj bs => JVal.beqObj as bs
  | _, _ => false

/-- Pointwise equality of JSON arrays. -/
def JVal.beqArr : List JVal → List JVal → Bool
  | [], [] => true
  | x :: xs, y :: ys => JVal.beq x y && JVal.beqArr xs ys
  | _, _ => false

/-- Pointwise equality of JSON objects (key order included, as in the
canonical form produced by `json.load`). -/
def JVal.beqObj : List (String × JVal) → List (String × JVal) → Bool
  | [], [] => true
  | (k₁, v₁) :: xs, (k₂, v₂) :: ys => k₁ == k₂ && JVal.beq v₁ v₂ && JVal.beqObj xs ys
  | _, _ => false

end

mutual

/-- Soundness of `JVal.beq`: boolean equality implies propositional equality. -/
def JVal.eq_of_beq : ∀ {a b : JVal}, JVal.beq a b = true → a = b
  | .null, .null, _ => rfl
  | .bool _, .bool _, h => by simpa [JVal.beq] using h
  | .num _, .num _, h => by simpa [JVal.beq] using h
  | .str _, .str _, h => by simpa [JVal.beq] using h
  | .arr as, .arr bs, h => by
      rw [@JVal.eqArr_of_beqArr as bs (by simpa [JVal.beq] using h)]
  | .obj as, .obj bs, h => by
      rw [@JVal.eqObj_of_beqObj as bs (by simpa [JVal.beq] using h)]
  | .null, .bool _, h => by simp [JVal.beq] at h
  | .null, .num _, h => by simp [JVal.beq] at h
  | .null, .str _, h => by simp [JVal.beq] at h
  | .null, .arr _, h => by simp [JVal.beq] at h
  | .null, .obj _, h => by simp [JVal.beq] at h
  | .bool _, .null, h => by simp [JVal.beq] at h
  | .bool _, .num _, h => by simp [JVal.beq] at h
  | .bool _, .str _, h => by simp [JVal.beq] at h
  | .bool _, .arr _, h => by simp [JVal.beq] at h
  | .bool _, .obj _, h => by simp [JVal.beq] at h
  | .num _, .null, h => by simp [JVal.beq] at h
  | .num _, .bool _, h => by simp [JVal.beq] at h
  | .num _, .str _, h => by simp [JVal.beq] at h
  | .num _, .arr _, h => by simp [JVal.beq] at h
  | .num _, .obj _, h => by simp [JVal.beq] at h
  | .str _, .null, h => by simp [JVal.beq] at h
  | .str _, .bool _, h => by simp [JVal.beq] at h
  | .str _, .num _, h => by simp [JVal.beq] at h
  | .str _, .arr _, h => by simp [JVal.beq] at h
  | .str _, .obj _, h => by simp [JVal.beq] at h
  | .arr _, .null, h => by simp [JVal.beq] at h
  | .arr _, .bool _, h => by simp [JVal.beq] at h
  | .arr _, .num _, h => by simp [JVal.beq] at h
  | .arr _, .str _, h => by simp [JVal.beq] at h
  | .arr _, .obj _, h => by simp [JVal.beq] at h
  | .obj _, .null, h => by simp [JVal.beq] at h
  | .obj _, .bool _, h => by simp [JVal.beq] at h
  | .obj _, .num _, h => by simp [JVal.beq] at h
  | .obj _, .str _, h => by simp [JVal.beq] at h
  | .obj _, .arr _, h => by simp [JVal.beq] at h

/-- Soundness of `JVal.beqArr`. -/
def JVal.eqArr_of_beqArr : ∀ {as bs : List JVal}, JVal.beqArr as bs = true → as = bs
  | [], [], _ => rfl
  | x :: xs, y :: ys, h => by
      have h' : JVal.beq x y = true ∧ JVal.beqArr xs ys = true := by
        simpa [JVal.beqArr, Bool.and_eq_true] using h
      rw [JVal.eq_of_beq h'.1, JVal.eqArr_of_beqArr h'.2]
  | [], _ :: _, h => by simp [JVal.beqArr] at h
  | _ :: _, [], h => by simp [JVal.beqArr] at h

/-- Soundness of `JVal.beqObj`. -/
def JVal.eqObj_of_beqObj : ∀ {as bs : List (String × JVal)}, JVal.beqObj as bs = true → as = bs
  | [], [], _ => rfl
  | (k₁, v₁) :: xs, (k₂, v₂) :: ys, h => by
      have h' : (k₁ == k₂) = true ∧ JVal.beq v₁ v₂ = true ∧ JVal.beqObj xs ys = true := by
        simpa [JVal.beqObj, Bool.and_eq_true, and_assoc] using h
      rw [show k₁ = k₂ by simpa using h'.1, JVal.eq_of_beq h'.2.1, JVal.eqObj_of_beqObj h'.2.2]
  | [], _ :: _, h => by simp [JVal.beqObj] at h
  | _ :: _, [], h => by simp [JVal.beqObj] at h

end

mutual

/-- Reflexivity of `JVal.beq`. -/
def JVal.beq_refl : ∀ (a : JVal), JVal.beq a a = true
  | .null => rfl
  | .bool _ => by simp [JVal.beq]
  | .num _ => by simp [JVal.beq]
  | .str _ => by simp [JVal.beq]
  | .arr as => by simpa [JVal.beq] using JVal.beqArr_refl as
  | .obj as => by simpa [JVal.beq] using JVal.beqObj_refl as

/-- Reflexivity of `JVal.beqArr`. -/
def JVal.beqArr_refl : ∀ (as : List JVal), JVal.beqArr as as = true
  | [] => rfl
  | x :: xs => by simp [JVal.beqArr, JVal.beq_refl x, JVal.beqArr_refl xs]

/-- Reflexivity of `JVal.beqObj`. -/
def JVal.beqObj_refl : ∀ (as : List (String × JVal)), JVal.beqObj as as = true
  | [] => rfl
  | (k, v) :: xs => by simp [JVal.beqObj, JVal.beq_refl v, JVal.beqObj_refl xs]

end

instance : DecidableEq JVal := fun a b =>
  if h : JVal.beq a b = true then isTrue (JVal.eq_of_beq h)
  else isFalse (fun he => h (he ▸ JVal.beq_refl a))

instance : BEq JVal := ⟨JVal.beq⟩

instance : LawfulBEq JVal where
  eq_of_beq := JVal.eq_of_beq
  rfl := JVal.beq_refl _

/-- Test for the string constructor (used to model which values Python's
`sorted` can compare when the collection is not a singleton). -/
def JVal.isStr : JVal → Bool
  | .str _ => true
  | _ => false

/-- Payload of a string value. -/
def JVal.getStr : JVal → Option String
  | .str s => some s
  | _ => none

/-- Python exceptions that the script's operations can raise.  The claims
only depend on whether an operation raises, not on the exception class. -/
inductive PyErr where
  | typeError
  | attributeError
  | valueError
  | keyError
deriving DecidableEq

/-- First value stored under key `k` in an object's field list (Python
dict lookup; field lists coming from `json.load` have unique keys). -/
def getKey (kvs : List (String × JVal)) (k : String) : Option JVal :=
  (kvs.find? (fun p => p.1 == k)).map (fun p => p.2)

/-- Python dict assignment `d[k] = v`: replace the value in place if the
key is present, otherwise append the new pair at the end (insertion
order semantics). -/
def setKey (kvs : List (String × JVal)) (k : String) (v : JVal) : List (String × JVal) :=
  if kvs.any (fun p => p.1 == k) then
    kvs.map (fun p => if p.1 == k then (p.1, v) else p)
  else kvs ++ [(k, v)]

/-- Check that `pat` occurs at the start of `l` (character-wise). -/
def strStarts : List Char → List Char → Bool
  | [], _ => true
  | _ :: _, [] => false
  | a :: as, b :: bs => a == b && strStarts as bs

/-- Check that `pat` occurs contiguously somewhere in `l` (Python
substring membership `pat in s`). -/
def strHasSub (pat : List Char) : List Char → Bool
  | [] => pat.isEmpty
  | l@(_ :: rest) => strStarts pat l || strHasSub pat rest

/-- Python membership `k in v` for a string `k` (line 62 of the source):
key membership for dicts, element equality for lists, substring test for
strings; `in` on None, booleans or numbers raises TypeError. -/
def pyIn (k : String) : JVal → Except PyErr Bool
  | .obj kvs => .ok (kvs.any (fun p => p.1 == k))
  | .arr xs => .ok (xs.any (fun x => x == JVal.str k))
  | .str s => .ok (strHasSub k.data s.data)
  | _ => .error .typeError

/-- Python subscription `v[k]` with a string key (line 63): dict lookup
(KeyError if absent); on lists and strings a string index raises
TypeError, as does subscripting a scalar. -/
def pySubscript (v : JVal) (k : String) : Except PyErr JVal :=
  match v with
  | .obj kvs =>
    match getKey kvs k with
    | some w => .ok w
    | none => .error .keyError
  | _ => .error .typeError

/-- Python `v.get(k, default)` (lines 61, 68, 69, 71): only dicts have a
`get` method, anything else raises AttributeError. -/
def pyDictGet (v : JVal) (k : String) (dflt : JVal) : Except PyErr JVal :=
  match v with
  | .obj kvs => .ok ((getKey kvs k).getD dflt)
  | _ => .error .attributeError

/-- Python `dict(v)` (line 70): copies a dict.  On any non-dict entry
the script fails: `dict` itself raises for scalars and for most
list/string payloads, and the few shapes `dict` would accept (empty or
pair-shaped sequences) still crash at the following `entry.get` call
(line 71), so the embedding reports the error at this step. -/
def pyDict (v : JVal) : Except PyErr (List (String × JVal)) :=
  match v with
  | .obj kvs => .ok kvs
  | _ => .error .typeError

/-- Python iteration `for x in v` (lines 61, 69): arrays yield their
elements, strings their characters (as one-character strings), dicts
their keys; None, booleans and numbers are not iterable. -/
def pyIter (v : JVal) : Except PyErr (List JVal) :=
  match v with
  | .arr xs => .ok xs
  | .str s => .ok (s.data.map (fun c => JVal.str (String.mk [c])))
  | .obj kvs => .ok (kvs.map (fun p => JVal.str p.1))
  | _ => .error .typeError

/-- Codepoint-lexicographic comparison of character lists, the order
Python uses on strings: compare characters left to right, a proper
prefix precedes its extensions. -/
def charsLeB : List Char → List Char → Bool
  | [], _ => true
  | _ :: _, [] => false
  | a :: as, b :: bs => if a < b then true else if b < a then false else charsLeB as bs

/-- Codepoint-lexicographic order on strings (Python's `<=` on `str`). -/
def strLeB (a b : String) : Bool :=
  charsLeB a.data b.data

/-- Codepoint-lexicographic order on strings as a relation (the order
Python's `sorted` uses on `str`). -/
def strLe (a b : String) : Prop :=
  strLeB a b = true

instance : DecidableRel strLe :=
  fun a b => instDecidableEqBool (strLeB a b) true

/-- Python `sorted(s)` applied to the deduplicated title collection
(line 53).  A collection of at most one element is returned without any
comparison; a collection of strings is sorted codepoint-wise (Python's
stable sort on a duplicate-free collection is the unique weakly-sorted
permutation, so insertion sort models it exactly).  Two or more
elements that are not all strings raise TypeError whenever a string or
None is among them, which covers every mix the spec's data model can
produce; uniform non-string element types are outside the spec's
contract and are mapped to the same error. -/
def pySorted (l : List JVal) : Except PyErr (List JVal) :=
  if l.all JVal.isStr then .ok ((List.insertionSort strLe (l.filterMap JVal.getStr)).map JVal.str)
  else if l.length ≤ 1 then .ok l
  else .error .typeError

/-- Inner loop of `generate_labels` (lines 41 to 48) with an explicit
fuel argument bounding the iteration count: emit the digit `n % 26`,
divide by 26, stop on zero, otherwise subtract one and repeat.  The
starting value is a sufficient fuel since the loop variable strictly
decreases. -/
def labelDigitsGo : Nat → Nat → List Nat
  | 0, n => [n % 26]
  | fuel + 1, n => if n < 26 then [n] else labelDigitsGo fuel (n / 26 - 1) ++ [n % 26]

/-- Digit list (most significant first, each digit below 26) produced by
the label loop for the number `n`. -/
def labelDigits (n : Nat) : List Nat :=
  labelDigitsGo n n

/-- Label produced for the number `n`: digits rendered with letters,
digit 0 shown as the character A (line 44). -/
def toLabel (n : Nat) : String :=
  String.mk ((labelDigits n).map (fun d => Char.ofNat (65 + d)))

/-- Embedding of `generate_labels(count)` (lines 37 to 49): the labels
for the numbers 0 to count - 1, in order. -/
def generate_labels (count : Nat) : List String :=
  (List.range count).map toLabel

/-- Value decoded from a digit list in least-significant-first order,
inverting the label loop: the last digit emitted contributes itself,
every earlier digit `d` turns a partial value `v` into `26 * (v + 1) + d`. -/
def labelVal : List Nat → Nat
  | [] => 0
  | [d] => d
  | d :: rest => 26 * (labelVal rest + 1) + d

/-- Bijective base-26 digit expansion, written from the spec's words:
the digits of a positive number in bijective numeration use the range 1
to 26, the last digit is the representative of the number modulo 26 in
that range, and the remaining prefix represents the quotient.  A fuel
argument bounds the iteration exactly as for the code-side digits. -/
def specDigitsGo : Nat → Nat → List Nat
  | 0, m => [m]
  | fuel + 1, m => if m ≤ 26 then [m] else specDigitsGo fuel ((m - 1) / 26) ++ [m - 26 * ((m - 1) / 26)]

/-- Bijective base-26 digits of a positive number, most significant
first, each in the range 1 to 26. -/
def specDigits (m : Nat) : List Nat :=
  specDigitsGo m m

/-- Spec-side definition of the label scheme: the bijective base-26
representation of the 0-indexed number `k` is the digit string of
`k + 1` with digit 1 rendered as A through digit 26 rendered as Z. -/
def specBijBase26 (k : Nat) : String :=
  String.mk ((specDigits (k + 1)).map (fun d => Char.ofNat (64 + d)))

/-- Embedding of `build_mapping(titles)` (lines 52 to 55): deduplicate
(`set`), sort (`sorted`), generate as many labels, and zip titles with
labels positionally (`dict(zip(...))`, an association list with unique
keys). -/
def build_mapping (titles : List JVal) : Except PyErr (List (JVal × String)) :=
  match pySorted titles.dedup with
  | .error er => .error er
  | .ok u => .ok (u.zip (generate_labels u.length))

/-- Title collection over one entry list (lines 61 to 63): for each
entry, test membership of the key, then subscript. -/
def entryTitles : List JVal → Except PyErr (List JVal)
  | [] => .ok []
  | e :: rest =>
    match pyIn "title" e with
    | .error er => .error er
    | .ok b =>
      if b then
        match pySubscript e "title" with
        | .error er => .error er
        | .ok t =>
          match entryTitles rest with
          | .error er => .error er
          | .ok ts => .ok (t :: ts)
      else entryTitles rest

/-- Title collection over the room list (lines 59 to 63): for each room,
read `entries` with default `[]`, iterate it, and collect the entry
titles in order. -/
def roomTitles : List JVal → Except PyErr (List JVal)
  | [] => .ok []
  | room :: rest =>
    match pyDictGet room "entries" (.arr []) with
    | .error er => .error er
    | .ok ev =>
      match pyIter ev with
      | .error er => .error er
      | .ok es =>
        match entryTitles es with
        | .error er => .error er
        | .ok ts =>
          match roomTitles rest with
          | .error er => .error er
          | .ok ts' => .ok (ts ++ ts')

/-- Per-entry rewriting (lines 70 to 74): shallow-copy the entry, read
its title with default None, and overwrite the title field with the
mapped label when the title is a key of the mapping. -/
def anonEntry (m : List (JVal × String)) (e : JVal) : Except PyErr JVal :=
  match pyDict e with
  | .error er => .error er
  | .ok ne =>
    match pyDictGet e "title" .null with
    | .error er => .error er
    | .ok t =>
      match m.find? (fun p => p.1 == t) with
      | some p => .ok (.obj (setKey ne "title" (.str p.2)))
      | none => .ok (.obj ne)

/-- Result of the per-entry rewriting on an entry that is a mapping:
the field list with the title overwritten when the title value (default
None) is a key of the mapping. -/
def applyTitle (m : List (JVal × String)) (kvs : List (String × JVal)) : List (String × JVal) :=
  match m.find? (fun p => p.1 == ((getKey kvs "title").getD .null)) with
  | some p => setKey kvs "title" (.str p.2)
  | none => kvs

/-- Rewriting of one entry list, preserving order (lines 69 to 74). -/
def anonEntries (m : List (JVal × String)) : List JVal → Except PyErr (List JVal)
  | [] => .ok []
  | e :: rest =>
    match anonEntry m e with
    | .error er => .error er
    | .ok ne =>
      match anonEntries m rest with
      | .error er => .error er
      | .ok nes => .ok (ne :: nes)

/-- Per-room rewriting (lines 67 to 74): build a fresh record with
exactly the keys `room` (copied with default None) and `entries` (the
rewritten entry list). -/
def anonRoom (m : List (JVal × String)) (room : JVal) : Except PyErr JVal :=
  match pyDictGet room "room" .null with
  | .error er => .error er
  | .ok rv =>
    match pyDictGet room "entries" (.arr []) with
    | .error er => .error er
    | .ok ev =>
      match pyIter ev with
      | .error er => .error er
      | .ok es =>
        match anonEntries m es with
        | .error er => .error er
        | .ok nes => .ok (.obj [("room", rv), ("entries", .arr nes)])

/-- Rewriting of the room list, preserving order (lines 66 to 75). -/
def anonRooms (m : List (JVal × String)) : List JVal → Except PyErr (List JVal)
  | [] => .ok []
  | room :: rest =>
    match anonRoom m room with
    | .error er => .error er
    | .ok nr =>
      match anonRooms m rest with
      | .error er => .error er
      | .ok nrs => .ok (nr :: nrs)

/-- Embedding of `anonymize(data)` (lines 58 to 76): collect all titles,
build the mapping, then rebuild every room. -/
def anonymize (data : List JVal) : Except PyErr (List JVal) :=
  match roomTitles data with
  | .error er => .error er
  | .ok ts =>
    match build_mapping ts with
    | .error er => .error er
    | .ok m => anonRooms m data

/-- File system state for the loader and writer, at the granularity of
already-parsed JSON documents: a map from path to the document the file
holds.  Byte-level reading, UTF-8 decoding and JSON parsing are
abstracted away; a present path yields its parsed document and an
absent path raises the missing-file condition. -/
def findFile (fs : List (String × List JVal)) (path : String) : Option (List JVal) :=
  (fs.find? (fun q => q.1 == path)).map (fun q => q.2)

/-- Overwrite or create the file at `path`. -/
def writeFile (fs : List (String × List JVal)) (path : String) (d : List JVal) :
    List (String × List JVal) :=
  if fs.any (fun q => q.1 == path) then
    fs.map (fun q => if q.1 == path then (q.1, d) else q)
  else fs ++ [(path, d)]

/-- Embedding of `load_json(path)` (lines 23 to 28): return the parsed
document, or raise `SystemExit` with the message naming the path when
the file does not exist (a `SystemExit` carrying a string message
terminates the process with exit status 1). -/
def load_json (fs : List (String × List JVal)) (path : String) : Except String (List JVal) :=
  match findFile fs path with
  | some d => .ok d
  | none => .error ("入力ファイルが見つかりません: " ++ path)

/-- Terminal failure of a run: the missing-file `SystemExit` or a
propagated Python exception.  Either way the process exit status is
nonzero. -/
inductive RunError where
  | exitMsg (msg : String)
  | pyExn (e : PyErr)

deriving instance DecidableEq for RunError

deriving instance DecidableEq for Except

/-- Process exit status of a failed run: `SystemExit` with a string
message exits with status 1, an uncaught exception also exits with
status 1. -/
def RunError.exitCode : RunError → Nat :=
  fun _ => 1

/-- Embedding of `main(argv)` (lines 79 to 87) over the file-system
state: resolve the two positional arguments with their defaults, load,
anonymize, save, and report.  The returned pair carries the outcome
(the printed confirmation line, or the terminal failure) and the file
system after the run; on failure the file system is the one at the
moment of termination. -/
def mainRun (fs : List (String × List JVal)) (argv : List String) :
    Except RunError String × List (String × List JVal) :=
  let inputPath := (argv.get? 1).getD "reserves.json"
  let outputPath := (argv.get? 2).getD "reserves_anonymized.json"
  match load_json fs inputPath with
  | .error msg => (.error (.exitMsg msg), fs)
  | .ok data =>
    match anonymize data with
    | .error er => (.error (.pyExn er), fs)
    | .ok anon =>
      (.ok ("Anonymized " ++ inputPath ++ " -> " ++ outputPath), writeFile fs outputPath anon)

/-- Input-side observation: the entry of `data` at room index `i`,
entry index `j`, through the same access path the script uses (`entries`
with default `[]`, then iteration). -/
def inputEntryAt (data : List JVal) (i j : Nat) : Option JVal :=
  match data.get? i with
  | some (.obj kvs) =>
    match pyIter ((getKey kvs "entries").getD (.arr [])) with
    | .ok es => es.get? j
    | .error _ => none
  | _ => none

/-- Input-side observation: the iterated entry list of the room at index
`i`. -/
def inputEntriesAt (data : List JVal) (i : Nat) : Option (List JVal) :=
  match data.get? i with
  | some (.obj kvs) =>
    match pyIter ((getKey kvs "entries").getD (.arr [])) with
    | .ok es => some es
    | .error _ => none
  | _ => none

/-- Output-side observation: the entry list of the room record at index
`i` of the output document. -/
def outEntriesAt (out : List JVal) (i : Nat) : Option (List JVal) :=
  match out.get? i with
  | some (.obj kvs) =>
    match getKey kvs "entries" with
    | some (.arr nes) => some nes
    | _ => none
  | _ => none

/-- Output-side observation: the entry at room index `i`, entry index
`j` of the output document. -/
def outEntryAt (out : List JVal) (i j : Nat) : Option JVal :=
  match outEntriesAt out i with
  | some nes => nes.get? j
  | none => none

/-- Output-side observation: the title value of the output entry at room
index `i`, entry index `j`. -/
def outTitleAt (out : List JVal) (i j : Nat) : Option JVal :=
  match outEntryAt out i j with
  | some (.obj ekvs) => getKey ekvs "title"
  | _ => none

/-- String-level composite `sorted(set(titles))` (line 53): the unique
titles in codepoint-lexicographic order. -/
def sortedTitles (ss : List String) : List String :=
  List.insertionSort strLe ss.dedup

/-! ### Order lemmas for the codepoint-lexicographic comparison -/

theorem charsLeB_total : ∀ as bs : List Char, charsLeB as bs = true ∨ charsLeB bs as = true := by
  intro as
  induction as with
  | nil => intro bs; left; rfl
  | cons a as ih =>
    intro bs
    cases bs with
    | nil => right; rfl
    | cons b bs =>
      rcases lt_trichotomy a b with h | h | h
      · left; simp [charsLeB, h]
      · subst h
        rcases ih bs with h' | h' <;> [left; right] <;>
          simpa [charsLeB, lt_irrefl] using h'
      · right; simp [charsLeB, h]

theorem charsLeB_trans :
    ∀ as bs cs : List Char, charsLeB as bs = true → charsLeB bs cs = true →
      charsLeB as cs = true := by
  intro as
  induction as with
  | nil => intro bs cs _ _; rfl
  | cons a as ih =>
    intro bs cs h1 h2
    cases bs with
    | nil => simp [charsLeB] at h1
    | cons b bs =>
      cases cs with
      | nil => simp [charsLeB] at h2
      | cons c cs =>
        rcases lt_trichotomy a b with hab | hab | hab
        · rcases lt_trichotomy b c with hbc | hbc | hbc
          · simp [charsLeB, lt_trans hab hbc]
          · subst hbc; simp [charsLeB, hab]
          · rw [charsLeB, if_neg (lt_asymm hbc), if_pos hbc] at h2; cases h2
        · subst hab
          rcases lt_trichotomy a c with hac | hac | hac
          · simp [charsLeB, hac]
          · subst hac
            rw [charsLeB, if_neg (lt_irrefl a), if_neg (lt_irrefl a)] at h1 h2 ⊢
            exact ih bs cs h1 h2
          · rw [charsLeB, if_neg (lt_asymm hac), if_pos hac] at h2; cases h2
        · rw [charsLeB, if_neg (lt_asymm hab), if_pos hab] at h1; cases h1

theorem charsLeB_eq_true_iff : ∀ as bs : List Char, charsLeB as bs = true ↔ ¬ bs < as := by
  intro as
  induction as with
  | nil =>
    intro bs
    exact ⟨fun _ => List.Lex.not_nil_right _ _, fun _ => rfl⟩
  | cons a as ih =>
    intro bs
    cases bs with
    | nil =>
      constructor
      · intro h; cases h
      · intro h; exact absurd List.Lex.nil h
    | cons b bs =>
      rcases lt_trichotomy a b with hab | hab | hab
      · rw [charsLeB, if_pos hab]
        constructor
        · intro _ hlex
          cases hlex with
          | cons h' => exact lt_irrefl a hab
          | rel h' => exact lt_asymm hab h'
        · intro _; rfl
      · subst hab
        rw [charsLeB, if_neg (lt_irrefl a), if_neg (lt_irrefl a), ih bs]
        constructor
        · intro h hlex
          cases hlex with
          | cons h' => exact h h'
          | rel h' => exact lt_irrefl a h'
        · intro h h'; exact h (List.Lex.cons h')
      · rw [charsLeB, if_neg (lt_asymm hab), if_pos hab]
        constructor
        · intro h; cases h
        · intro h; exact absurd (List.Lex.rel hab) h

theorem strLe_iff_le {a b : String} : strLe a b ↔ a ≤ b := by
  have h1 : b < a ↔ b.data < a.data := String.lt_iff_toList_lt
  rw [strLe, strLeB, charsLeB_eq_true_iff, ← h1, not_lt]

theorem strLe_total : ∀ a b : String, strLe a b ∨ strLe b a := by
  intro a b
  exact charsLeB_total a.data b.data

theorem strLe_trans : ∀ a b c : String, strLe a b → strLe b c → strLe a c := by
  intro a b c h1 h2
  exact charsLeB_trans a.data b.data c.data h1 h2

/-! ### Lemmas about the label generator -/


theorem labelDigitsGo_congr :
    ∀ f f' n : Nat, n ≤ f → n ≤ f' → labelDigitsGo f n = labelDigitsGo f' n := by
  intro f
  induction f with
  | zero =>
    intro f' n hf _
    have hn : n = 0 := by omega
    subst hn
    cases f' with
    | zero => rfl
    | succ f' => simp [labelDigitsGo]
  | succ fu ih =>
    intro f' n hf hf'
    cases f' with
    | zero =>
      have hn : n = 0 := by omega
      subst hn
      simp [labelDigitsGo]
    | succ fu' =>
      by_cases h26 : n < 26
      · simp [labelDigitsGo, h26]
      · have hdiv : n / 26 < n := Nat.div_lt_self (by omega) (by omega)
        rw [labelDigitsGo, labelDigitsGo, if_neg h26, if_neg h26,
          ih fu' (n / 26 - 1) (by omega) (by omega)]

theorem labelDigits_eq (n : Nat) :
    labelDigits n = if n < 26 then [n] else labelDigits (n / 26 - 1) ++ [n % 26] := by
  by_cases h26 : n < 26
  · rw [if_pos h26]
    cases n with
    | zero => rfl
    | succ k => simp [labelDigits, labelDigitsGo, h26]
  · rw [if_neg h26]
    cases n with
    | zero => omega
    | succ k =>
      have hdiv : (k + 1) / 26 < k + 1 := Nat.div_lt_self (by omega) (by omega)
      show labelDigitsGo (k + 1) (k + 1) =
        labelDigitsGo ((k + 1) / 26 - 1) ((k + 1) / 26 - 1) ++ [(k + 1) % 26]
      rw [labelDigitsGo, if_neg h26,
        labelDigitsGo_congr k ((k + 1) / 26 - 1) ((k + 1) / 26 - 1) (by omega) (le_refl _)]

theorem labelDigits_ne_nil (n : Nat) : labelDigits n ≠ [] := by
  rw [labelDigits_eq]
  by_cases h26 : n < 26 <;> simp [h26]

theorem labelDigits_digit_lt (n : Nat) : ∀ d ∈ labelDigits n, d < 26 := by
  induction n using Nat.strong_induction_on with
  | _ n ih =>
    rw [labelDigits_eq]
    by_cases h26 : n < 26
    · rw [if_pos h26]
      intro d hd
      rw [List.mem_singleton] at hd
      omega
    · rw [if_neg h26]
      intro d hd
      rcases List.mem_append.mp hd with hd | hd
      · have hdiv : n / 26 < n := Nat.div_lt_self (by omega) (by omega)
        exact ih (n / 26 - 1) (by omega) d hd
      · rw [List.mem_singleton] at hd
        subst hd
        exact Nat.mod_lt _ (by omega)

theorem labelVal_labelDigits_reverse (n : Nat) : labelVal (labelDigits n).reverse = n := by
  induction n using Nat.strong_induction_on with
  | _ n ih =>
    rw [labelDigits_eq]
    by_cases h26 : n < 26
    · rw [if_pos h26]
      rfl
    · rw [if_neg h26]
      have hdiv : n / 26 < n := Nat.div_lt_self (by omega) (by omega)
      have hne : (labelDigits (n / 26 - 1)).reverse ≠ [] :=
        fun h => labelDigits_ne_nil _ (List.reverse_eq_nil_iff.mp h)
      obtain ⟨r, rest, hrr⟩ := List.exists_cons_of_ne_nil hne
      have hrec : labelVal (labelDigits (n / 26 - 1)).reverse = n / 26 - 1 :=
        ih (n / 26 - 1) (by omega)
      rw [List.reverse_append, List.reverse_singleton, List.singleton_append, hrr]
      cases rest with
      | nil =>
        show 26 * (labelVal [r] + 1) + n % 26 = n
        rw [← hrr, hrec]
        have h1 : 1 ≤ n / 26 := Nat.one_le_div_iff (by omega) |>.mpr (by omega)
        have h2 := Nat.div_add_mod n 26
        omega
      | cons r' rest' =>
        show 26 * (labelVal (r :: r' :: rest') + 1) + n % 26 = n
        rw [show labelVal (r :: r' :: rest') = labelVal (labelDigits (n / 26 - 1)).reverse by
          rw [hrr]]
        rw [hrec]
        have h1 : 1 ≤ n / 26 := Nat.one_le_div_iff (by omega) |>.mpr (by omega)
        have h2 := Nat.div_add_mod n 26
        omega

theorem labelDigits_injective : Function.Injective labelDigits := by
  intro m n h
  have hm := labelVal_labelDigits_reverse m
  have hn := labelVal_labelDigits_reverse n
  rw [← hm, ← hn, h]

theorem charOfNat_inj_below :
    ∀ d₁ < 26, ∀ d₂ < 26, Char.ofNat (65 + d₁) = Char.ofNat (65 + d₂) → d₁ = d₂ := by
  decide

theorem map_charOfNat_inj :
    ∀ l₁ l₂ : List Nat, (∀ d ∈ l₁, d < 26) → (∀ d ∈ l₂, d < 26) →
      l₁.map (fun d => Char.ofNat (65 + d)) = l₂.map (fun d => Char.ofNat (65 + d)) →
      l₁ = l₂ := by
  intro l₁
  induction l₁ with
  | nil =>
    intro l₂ _ _ h
    cases l₂ with
    | nil => rfl
    | cons b bs => simp at h
  | cons a as ih =>
    intro l₂ h₁ h₂ h
    cases l₂ with
    | nil => simp at h
    | cons b bs =>
      simp only [List.map_cons, List.cons.injEq] at h
      have ha : a = b :=
        charOfNat_inj_below a (h₁ a (by simp)) b (h₂ b (by simp)) h.1
      rw [ha, ih bs (fun d hd => h₁ d (by simp [hd])) (fun d hd => h₂ d (by simp [hd])) h.2]

theorem toLabel_injective : Function.Injective toLabel := by
  intro m n h
  rw [toLabel, toLabel] at h
  have h' := congrArg String.data h
  simp only at h'
  exact labelDigits_injective
    (map_charOfNat_inj _ _ (labelDigits_digit_lt m) (labelDigits_digit_lt n) h')

theorem charOfNat_in_alphabet :
    ∀ d < 26, 'A' ≤ Char.ofNat (65 + d) ∧ Char.ofNat (65 + d) ≤ 'Z' := by
  decide

theorem toLabel_chars (n : Nat) : ∀ c ∈ (toLabel n).data, 'A' ≤ c ∧ c ≤ 'Z' := by
  intro c hc
  rw [toLabel] at hc
  simp only [List.mem_map] at hc
  obtain ⟨d, hd, hcd⟩ := hc
  have hlt := labelDigits_digit_lt n d hd
  subst hcd
  exact charOfNat_in_alphabet d hlt

theorem specDigitsGo_congr :
    ∀ f f' m : Nat, m ≤ f → m ≤ f' → specDigitsGo f m = specDigitsGo f' m := by
  intro f
  induction f with
  | zero =>
    intro f' m hf _
    have hm : m = 0 := by omega
    subst hm
    cases f' with
    | zero => rfl
    | succ f' => simp [specDigitsGo]
  | succ fu ih =>
    intro f' m hf hf'
    cases f' with
    | zero =>
      have hm : m = 0 := by omega
      subst hm
      simp [specDigitsGo]
    | succ fu' =>
      by_cases h26 : m ≤ 26
      · simp [specDigitsGo, h26]
      · have hdiv : (m - 1) / 26 < m := by
          have := Nat.div_le_self (m - 1) 26
          have : (m - 1) / 26 ≤ m - 1 := Nat.div_le_self _ _
          omega
        rw [specDigitsGo, specDigitsGo, if_neg h26, if_neg h26,
          ih fu' ((m - 1) / 26) (by omega) (by omega)]

theorem specDigits_eq (m : Nat) :
    specDigits m = if m ≤ 26 then [m] else specDigits ((m - 1) / 26) ++ [m - 26 * ((m - 1) / 26)] := by
  by_cases h26 : m ≤ 26
  · rw [if_pos h26]
    cases m with
    | zero => rfl
    | succ k => simp [specDigits, specDigitsGo, h26]
  · rw [if_neg h26]
    cases m with
    | zero => omega
    | succ k =>
      have hdiv : (k + 1 - 1) / 26 ≤ k := by
        have := Nat.div_le_self k 26
        omega
      show specDigitsGo (k + 1) (k + 1) =
        specDigitsGo ((k + 1 - 1) / 26) ((k + 1 - 1) / 26) ++ [k + 1 - 26 * ((k + 1 - 1) / 26)]
      rw [specDigitsGo, if_neg h26,
        specDigitsGo_congr k ((k + 1 - 1) / 26) ((k + 1 - 1) / 26) (by omega) (le_refl _)]

theorem specDigits_succ (n : Nat) : specDigits (n + 1) = (labelDigits n).map (fun d => d + 1) := by
  induction n using Nat.strong_induction_on with
  | _ n ih =>
    rw [specDigits_eq, labelDigits_eq]
    by_cases h26 : n < 26
    · rw [if_pos (by omega : n + 1 ≤ 26), if_pos h26]
      rfl
    · have hq : (n + 1 - 1) / 26 = n / 26 := by simp
      have h1 : 1 ≤ n / 26 := Nat.one_le_div_iff (by omega) |>.mpr (by omega)
      have h2 := Nat.div_add_mod n 26
      rw [if_neg (by omega : ¬ n + 1 ≤ 26), if_neg h26, hq, List.map_append]
      have hdiv : n / 26 < n := Nat.div_lt_self (by omega) (by omega)
      have hrec : specDigits (n / 26) = (labelDigits (n / 26 - 1)).map (fun d => d + 1) := by
        have := ih (n / 26 - 1) (by omega)
        rwa [show n / 26 - 1 + 1 = n / 26 by omega] at this
      rw [hrec]
      congr 1
      show [n + 1 - 26 * (n / 26)] = [n % 26 + 1]
      congr 1
      omega

theorem toLabel_eq_specBijBase26 (k : Nat) : toLabel k = specBijBase26 k := by
  rw [toLabel, specBijBase26, specDigits_succ, List.map_map]
  congr 1
  apply List.map_congr_left
  intro d _
  show Char.ofNat (65 + d) = Char.ofNat (64 + (d + 1))
  congr 1
  omega

theorem generate_labels_length (count : Nat) : (generate_labels count).length = count := by
  simp [generate_labels]

theorem generate_labels_get? {count k : Nat} (h : k < count) :
    (generate_labels count).get? k = some (toLabel k) := by
  rw [generate_labels, List.get?_map, List.get?_range h]
  rfl

theorem generate_labels_nodup (count : Nat) : (generate_labels count).Nodup :=
  (List.nodup_range count).map toLabel_injective

/-- C2: for every non-negative count N, generate_labels N produces exactly N
pairwise-distinct strings over the alphabet A through Z, where the Kth string
(0-indexed) is the bijective base-26 representation of K; in particular index
0 yields "A", index 25 yields "Z", and index 26 yields "AA". -/
theorem claim_C2_generate_labels (N : Nat) :
    (generate_labels N).length = N ∧
    (generate_labels N).Nodup ∧
    (∀ k, k < N → (generate_labels N).get? k = some (specBijBase26 k)) ∧
    (∀ s ∈ generate_labels N, ∀ c ∈ s.data, 'A' ≤ c ∧ c ≤ 'Z') := by
  refine ⟨generate_labels_length N, generate_labels_nodup N, ?_, ?_⟩
  · intro k hk
    rw [generate_labels_get? hk, toLabel_eq_specBijBase26]
  · intro s hs c hc
    rw [generate_labels, List.mem_map] at hs
    obtain ⟨k, _, rfl⟩ := hs
    exact toLabel_chars k c hc

/-- Witness for C2 at N = 27: the anchor labels required by the spec. -/
theorem claim_C2_generate_labels_witness :
    (generate_labels 27).get? 0 = some "A" ∧
    (generate_labels 27).get? 25 = some "Z" ∧
    (generate_labels 27).get? 26 = some "AA" := by
  have h := (claim_C2_generate_labels 27).2.2.1
  refine ⟨?_, ?_, ?_⟩
  · rw [h 0 (by decide)]
    decide
  · rw [h 25 (by decide)]
    decide
  · rw [h 26 (by decide)]
    decide

/-! ### Lemmas about build_mapping -/

theorem zip_get?_eq {α β : Type} {l₁ : List α} {l₂ : List β} {k : Nat} {a : α} {b : β}
    (h₁ : l₁.get? k = some a) (h₂ : l₂.get? k = some b) :
    (l₁.zip l₂).get? k = some (a, b) := by
  induction l₁ generalizing l₂ k with
  | nil => simp at h₁
  | cons x xs ih =>
    cases l₂ with
    | nil => simp at h₂
    | cons y ys =>
      cases k with
      | zero =>
        simp only [List.get?] at h₁ h₂
        cases h₁
        cases h₂
        rfl
      | succ k =>
        simp only [List.get?] at h₁ h₂ ⊢
        exact ih h₁ h₂

theorem dedup_map_str (ss : List String) :
    (ss.map JVal.str).dedup = ss.dedup.map JVal.str := by
  induction ss with
  | nil => rfl
  | cons a ss ih =>
    by_cases ha : a ∈ ss
    · rw [List.map_cons, List.dedup_cons_of_mem (by
        exact (List.mem_map_of_injective (fun x y h => JVal.str.inj h)).mpr ha),
        List.dedup_cons_of_mem ha, ih]
    · rw [List.map_cons, List.dedup_cons_of_not_mem (fun hc => ha
        ((List.mem_map_of_injective (fun x y h => JVal.str.inj h)).mp hc)),
        List.dedup_cons_of_not_mem ha, List.map_cons, ih]

theorem pySorted_map_str (l : List String) :
    pySorted (l.map JVal.str) = .ok ((List.insertionSort strLe l).map JVal.str) := by
  rw [pySorted, if_pos (by simp [JVal.isStr]), List.filterMap_map]
  have h1 : (JVal.getStr ∘ JVal.str) = some := by
    funext s
    rfl
  rw [h1, List.filterMap_some]

theorem build_mapping_map_str (ss : List String) :
    build_mapping (ss.map JVal.str) =
      .ok (((sortedTitles ss).map JVal.str).zip (generate_labels (sortedTitles ss).length)) := by
  rw [build_mapping, dedup_map_str, pySorted_map_str, sortedTitles]
  simp

theorem sortedTitles_sorted (ss : List String) : (sortedTitles ss).Sorted (· ≤ ·) := by
  haveI : IsTotal String strLe := ⟨strLe_total⟩
  haveI : IsTrans String strLe := ⟨fun a b c => strLe_trans a b c⟩
  exact (List.sorted_insertionSort strLe ss.dedup).imp (fun h => strLe_iff_le.mp h)

theorem sortedTitles_perm (ss : List String) : (sortedTitles ss).Perm ss.dedup :=
  List.perm_insertionSort strLe ss.dedup

theorem sortedTitles_nodup (ss : List String) : (sortedTitles ss).Nodup :=
  (sortedTitles_perm ss).nodup_iff.mpr (List.nodup_dedup ss)

theorem sortedTitles_mem (ss : List String) (s : String) : s ∈ sortedTitles ss ↔ s ∈ ss := by
  rw [(sortedTitles_perm ss).mem_iff, List.mem_dedup]

/-- C3: for every finite multiset of title strings, build_mapping returns the
mapping obtained by deduplicating the titles, sorting the unique titles by the
codepoint-lexicographic string order, and pairing them positionally with
generate_labels output (the Kth sorted title maps to the Kth label, so the
first maps to "A", the second to "B"); the mapping is injective in both
components, and zero unique titles yield the empty mapping. -/
theorem claim_C3_build_mapping (ss : List String) :
    build_mapping (ss.map JVal.str) =
      .ok (((sortedTitles ss).map JVal.str).zip (generate_labels (sortedTitles ss).length)) ∧
    (sortedTitles ss).Sorted (· ≤ ·) ∧
    (sortedTitles ss).Nodup ∧
    (∀ s : String, s ∈ sortedTitles ss ↔ s ∈ ss) ∧
    (∀ m, build_mapping (ss.map JVal.str) = .ok m →
      (m.map Prod.fst).Nodup ∧
      (m.map Prod.snd).Nodup ∧
      (∀ k s, (sortedTitles ss).get? k = some s → m.get? k = some (.str s, toLabel k)) ∧
      (ss = [] → m = [])) := by
  have hlen : (generate_labels (sortedTitles ss).length).length = (sortedTitles ss).length :=
    generate_labels_length _
  refine ⟨build_mapping_map_str ss, sortedTitles_sorted ss, sortedTitles_nodup ss,
    sortedTitles_mem ss, ?_⟩
  intro m hm
  rw [build_mapping_map_str ss] at hm
  have hm' : m = ((sortedTitles ss).map JVal.str).zip (generate_labels (sortedTitles ss).length) := by
    cases hm
    rfl
  subst hm'
  refine ⟨?_, ?_, ?_, ?_⟩
  · rw [List.map_fst_zip _ _ (by simp [hlen])]
    exact (sortedTitles_nodup ss).map (fun x y h => JVal.str.inj h)
  · rw [List.map_snd_zip _ _ (by simp [hlen])]
    exact generate_labels_nodup _
  · intro k s hk
    have hklt : k < (sortedTitles ss).length := by
      by_contra hge
      rw [List.get?_eq_none.mpr (by omega)] at hk
      cases hk
    apply zip_get?_eq
    · rw [List.get?_map, hk]
      rfl
    · exact generate_labels_get? hklt
  · intro hss
    subst hss
    rfl

/-- Witness for C3 at the spec's worked example: the titles "Beta LLC",
"Acme Corp", "Acme Corp" produce the mapping Acme Corp to A, Beta LLC to B. -/
theorem claim_C3_build_mapping_witness :
    build_mapping [JVal.str "Beta LLC", JVal.str "Acme Corp", JVal.str "Acme Corp"] =
      .ok [(JVal.str "Acme Corp", "A"), (JVal.str "Beta LLC", "B")] :=
  (claim_C3_build_mapping ["Beta LLC", "Acme Corp", "Acme Corp"]).1.trans (by decide)

/-! ### Structural lemmas about the anonymizer pipeline -/

theorem anonymize_ok_elim {data out : List JVal} (h : anonymize data = .ok out) :
    ∃ ts m, roomTitles data = .ok ts ∧ build_mapping ts = .ok m ∧ anonRooms m data = .ok out := by
  rw [anonymize] at h
  split at h
  · cases h
  · rename_i ts hts
    split at h
    · cases h
    · rename_i m hm
      exact ⟨ts, m, hts, hm, h⟩

theorem anonRooms_length {m : List (JVal × String)} :
    ∀ {rs os : List JVal}, anonRooms m rs = .ok os → os.length = rs.length := by
  intro rs
  induction rs with
  | nil =>
    intro os h
    cases h
    rfl
  | cons r rs ih =>
    intro os h
    rw [anonRooms] at h
    split at h
    · cases h
    · rename_i nr hr
      split at h
      · cases h
      · rename_i nrs hrs
        cases h
        simp [ih hrs]

theorem anonRooms_get? {m : List (JVal × String)} :
    ∀ {rs os : List JVal}, anonRooms m rs = .ok os → ∀ {i r}, rs.get? i = some r →
      ∃ o, os.get? i = some o ∧ anonRoom m r = .ok o := by
  intro rs
  induction rs with
  | nil =>
    intro os h i r hi
    simp at hi
  | cons x rs ih =>
    intro os h i r hi
    rw [anonRooms] at h
    split at h
    · cases h
    · rename_i nr hr
      split at h
      · cases h
      · rename_i nrs hrs
        cases h
        cases i with
        | zero =>
          simp only [List.get?] at hi
          cases hi
          exact ⟨nr, rfl, hr⟩
        | succ i =>
          simp only [List.get?] at hi ⊢
          exact ih hrs hi

theorem anonEntries_length {m : List (JVal × String)} :
    ∀ {es nes : List JVal}, anonEntries m es = .ok nes → nes.length = es.length := by
  intro es
  induction es with
  | nil =>
    intro nes h
    cases h
    rfl
  | cons e es ih =>
    intro nes h
    rw [anonEntries] at h
    split at h
    · cases h
    · rename_i ne he
      split at h
      · cases h
      · rename_i nes' hes
        cases h
        simp [ih hes]

theorem anonEntries_get? {m : List (JVal × String)} :
    ∀ {es nes : List JVal}, anonEntries m es = .ok nes → ∀ {j e}, es.get? j = some e →
      ∃ ne, nes.get? j = some ne ∧ anonEntry m e = .ok ne := by
  intro es
  induction es with
  | nil =>
    intro nes h j e hj
    simp at hj
  | cons x es ih =>
    intro nes h j e hj
    rw [anonEntries] at h
    split at h
    · cases h
    · rename_i ne he
      split at h
      · cases h
      · rename_i nes' hes
        cases h
        cases j with
        | zero =>
          simp only [List.get?] at hj
          cases hj
          exact ⟨ne, rfl, he⟩
        | succ j =>
          simp only [List.get?] at hj ⊢
          exact ih hes hj

theorem anonRoom_ok_elim {m : List (JVal × String)} {room nr : JVal}
    (h : anonRoom m room = .ok nr) :
    ∃ kvs es nes, room = .obj kvs ∧
      pyIter ((getKey kvs "entries").getD (.arr [])) = .ok es ∧
      anonEntries m es = .ok nes ∧
      nr = .obj [("room", (getKey kvs "room").getD .null), ("entries", .arr nes)] := by
  cases room with
  | obj kvs =>
    rw [anonRoom] at h
    simp only [pyDictGet] at h
    split at h
    · cases h
    · rename_i es hit
      split at h
      · cases h
      · rename_i nes hes
        cases h
        exact ⟨kvs, es, nes, rfl, hit, hes, rfl⟩
  | null => cases h
  | bool b => cases h
  | num n => cases h
  | str s => cases h
  | arr xs => cases h

theorem anonEntry_obj (m : List (JVal × String)) (kvs : List (String × JVal)) :
    anonEntry m (.obj kvs) = .ok (.obj (applyTitle m kvs)) := by
  simp only [anonEntry, pyDict, pyDictGet, applyTitle]
  cases m.find? (fun p => p.1 == ((getKey kvs "title").getD .null)) <;> rfl

theorem anonEntry_ok_elim {m : List (JVal × String)} {e ne : JVal}
    (h : anonEntry m e = .ok ne) : ∃ kvs, e = .obj kvs ∧ ne = .obj (applyTitle m kvs) := by
  cases e with
  | obj kvs =>
    rw [anonEntry_obj] at h
    cases h
    exact ⟨kvs, rfl, rfl⟩
  | null => cases h
  | bool b => cases h
  | num n => cases h
  | str s => cases h
  | arr xs => cases h

theorem inputEntryAt_elim {data : List JVal} {i j : Nat} {e : JVal}
    (h : inputEntryAt data i j = some e) :
    ∃ rkvs es, data.get? i = some (.obj rkvs) ∧
      pyIter ((getKey rkvs "entries").getD (.arr [])) = .ok es ∧ es.get? j = some e := by
  rw [inputEntryAt] at h
  split at h
  · rename_i rkvs hg
    split at h
    · rename_i es hit
      exact ⟨rkvs, es, hg, hit, h⟩
    · cases h
  · cases h

/-! ### Lemmas about object field access and update -/

theorem getKey_any {kvs : List (String × JVal)} {k : String} {v : JVal}
    (h : getKey kvs k = some v) : kvs.any (fun p => p.1 == k) = true := by
  rw [getKey] at h
  cases hf : kvs.find? (fun p => p.1 == k) with
  | none => rw [hf] at h; cases h
  | some p =>
    have hp := List.find?_some hf
    have hm := List.mem_of_find?_eq_some hf
    exact List.any_eq_true.mpr ⟨p, hm, hp⟩

theorem getKey_map_set {k : String} {v : JVal} :
    ∀ {kvs : List (String × JVal)}, kvs.any (fun p => p.1 == k) = true →
      getKey (kvs.map (fun p => if p.1 == k then (p.1, v) else p)) k = some v := by
  intro kvs
  induction kvs with
  | nil => intro h; simp at h
  | cons x xs ih =>
    intro h
    by_cases hk : (x.1 == k) = true
    · rw [List.map_cons, if_pos hk, getKey]
      simp only [List.find?, hk]
      rfl
    · have hk' : (x.1 == k) = false := by simpa using hk
      rw [List.any_cons, hk', Bool.false_or] at h
      rw [List.map_cons, if_neg hk, getKey]
      simp only [List.find?, hk']
      exact ih h

theorem setKey_getKey_same {kvs : List (String × JVal)} {k : String} {v : JVal}
    (hany : kvs.any (fun p => p.1 == k) = true) :
    getKey (setKey kvs k v) k = some v := by
  rw [setKey, if_pos hany]
  exact getKey_map_set hany

theorem filter_map_set {k : String} {v : JVal} :
    ∀ kvs : List (String × JVal),
      (kvs.map (fun p => if p.1 == k then (p.1, v) else p)).filter (fun p => !(p.1 == k)) =
        kvs.filter (fun p => !(p.1 == k)) := by
  intro kvs
  induction kvs with
  | nil => rfl
  | cons x xs ih =>
    by_cases hk : (x.1 == k) = true
    · rw [List.map_cons, if_pos hk, List.filter_cons, List.filter_cons]
      simp only [hk, Bool.not_true]
      rw [if_neg (by simp), if_neg (by simp)]
      exact ih
    · have hk' : (x.1 == k) = false := by simpa using hk
      rw [List.map_cons, if_neg hk, List.filter_cons, List.filter_cons]
      simp only [hk', Bool.not_false]
      simp only [if_true]
      rw [ih]

theorem setKey_filter (kvs : List (String × JVal)) (k : String) (v : JVal) :
    (setKey kvs k v).filter (fun p => !(p.1 == k)) = kvs.filter (fun p => !(p.1 == k)) := by
  rw [setKey]
  by_cases hany : kvs.any (fun p => p.1 == k) = true
  · rw [if_pos hany]
    exact filter_map_set kvs
  · rw [if_neg hany, List.filter_append]
    simp

theorem applyTitle_filter (m : List (JVal × String)) (kvs : List (String × JVal)) :
    (applyTitle m kvs).filter (fun p => !(p.1 == "title")) =
      kvs.filter (fun p => !(p.1 == "title")) := by
  rw [applyTitle]
  cases m.find? (fun p => p.1 == ((getKey kvs "title").getD .null)) with
  | none => rfl
  | some p => exact setKey_filter kvs "title" (.str p.2)

theorem applyTitle_title_mapped {m : List (JVal × String)} {kvs : List (String × JVal)}
    {tv : JVal} {lb : String} (ht : getKey kvs "title" = some tv)
    (hf : m.find? (fun p => p.1 == tv) = some (tv, lb)) :
    getKey (applyTitle m kvs) "title" = some (.str lb) := by
  rw [applyTitle, ht, Option.getD_some, hf]
  exact setKey_getKey_same (getKey_any ht)

/-! ### Coverage lemmas for the title mapping -/

theorem pySorted_mem {l u : List JVal} (h : pySorted l = .ok u) {a : JVal} (ha : a ∈ l) :
    a ∈ u := by
  rw [pySorted] at h
  by_cases hall : l.all JVal.isStr = true
  · rw [if_pos hall] at h
    cases h
    have has : JVal.isStr a = true := List.all_eq_true.mp hall a ha
    cases a with
    | str s =>
      rw [List.mem_map]
      refine ⟨s, ?_, rfl⟩
      rw [(List.perm_insertionSort strLe _).mem_iff, List.mem_filterMap]
      exact ⟨.str s, ha, rfl⟩
    | null => cases has
    | bool b => cases has
    | num n => cases has
    | arr xs => cases has
    | obj kvs => cases has
  · rw [if_neg hall] at h
    by_cases hlen : l.length ≤ 1
    · rw [if_pos hlen] at h
      cases h
      exact ha
    · rw [if_neg hlen] at h
      cases h

theorem pySorted_mem_isStr_or {l u : List JVal} (h : pySorted l = .ok u) {a : JVal}
    (ha : a ∈ u) : a.isStr = true ∨ a ∈ l := by
  rw [pySorted] at h
  by_cases hall : l.all JVal.isStr = true
  · rw [if_pos hall] at h
    cases h
    rw [List.mem_map] at ha
    obtain ⟨s, _, rfl⟩ := ha
    exact Or.inl rfl
  · rw [if_neg hall] at h
    by_cases hlen : l.length ≤ 1
    · rw [if_pos hlen] at h
      cases h
      exact Or.inr ha
    · rw [if_neg hlen] at h
      cases h

theorem mem_zip_left {α β : Type} :
    ∀ {l₁ : List α} {l₂ : List β} {a : α}, a ∈ l₁ → l₁.length ≤ l₂.length →
      ∃ b, (a, b) ∈ l₁.zip l₂ := by
  intro l₁
  induction l₁ with
  | nil => intro l₂ a ha _; cases ha
  | cons x xs ih =>
    intro l₂ a ha hlen
    cases l₂ with
    | nil => simp at hlen
    | cons y ys =>
      rcases List.mem_cons.mp ha with rfl | ha
      · exact ⟨y, List.mem_cons_self _ _⟩
      · obtain ⟨b, hb⟩ := ih ha (by simpa using hlen)
        exact ⟨b, List.mem_cons_of_mem _ hb⟩

theorem build_mapping_find {ts : List JVal} {m : List (JVal × String)}
    (h : build_mapping ts = .ok m) {tv : JVal} (htv : tv ∈ ts) :
    ∃ lb, m.find? (fun p => p.1 == tv) = some (tv, lb) := by
  rw [build_mapping] at h
  split at h
  · cases h
  · rename_i u hps
    cases h
    have hu : tv ∈ u := pySorted_mem hps (List.mem_dedup.mpr htv)
    have hlen : u.length ≤ (generate_labels u.length).length := by
      rw [generate_labels_length]
    obtain ⟨b, hb⟩ := mem_zip_left hu hlen
    have hsome : (List.find? (fun p => p.1 == tv) (u.zip (generate_labels u.length))).isSome := by
      rw [List.find?_isSome]
      exact ⟨(tv, b), hb, by simp⟩
    obtain ⟨p, hp⟩ := Option.isSome_iff_exists.mp hsome
    have hfst : p.1 = tv := by
      have := List.find?_some hp
      simpa using this
    refine ⟨p.2, ?_⟩
    rw [hp]
    cases p
    simp_all

theorem build_mapping_key_isStr {ts : List JVal} {m : List (JVal × String)}
    (h : build_mapping ts = .ok m) (hstr : ∀ t ∈ ts, t.isStr = true) {p : JVal × String}
    (hp : p ∈ m) : p.1.isStr = true := by
  rw [build_mapping] at h
  split at h
  · cases h
  · rename_i u hps
    cases h
    obtain ⟨a, b⟩ := p
    have hu : a ∈ u := (List.mem_zip hp).1
    rcases pySorted_mem_isStr_or hps hu with hs | hmem
    · exact hs
    · exact hstr a (List.mem_dedup.mp hmem)

theorem find?_null_of_keys_str {m : List (JVal × String)}
    (h : ∀ p ∈ m, p.1.isStr = true) :
    m.find? (fun p => p.1 == JVal.null) = none := by
  rw [List.find?_eq_none]
  intro p hp hbeq
  have h1 : p.1 = JVal.null := by simpa using hbeq
  have h2 := h p hp
  rw [h1] at h2
  cases h2

/-! ### The collection phase gathers every present title -/

theorem entryTitles_ok_mem :
    ∀ {es : List JVal} {ts : List JVal}, entryTitles es = .ok ts →
      ∀ {j : Nat} {kvs : List (String × JVal)} {tv : JVal},
        es.get? j = some (.obj kvs) → getKey kvs "title" = some tv → tv ∈ ts := by
  intro es
  induction es with
  | nil =>
    intro ts h j kvs tv hj ht
    simp at hj
  | cons e rest ih =>
    intro ts h j kvs tv hj ht
    rw [entryTitles] at h
    split at h
    · cases h
    · rename_i b hin
      by_cases hb : b = true
      · subst hb
        rw [if_pos rfl] at h
        split at h
        · cases h
        · rename_i t hsub
          split at h
          · cases h
          · rename_i ts' hrest
            cases h
            cases j with
            | zero =>
              simp only [List.get?] at hj
              cases hj
              have hsub' : pySubscript (.obj kvs) "title" = .ok tv := by
                rw [pySubscript, ht]
              rw [hsub'] at hsub
              cases hsub
              exact List.mem_cons_self _ _
            | succ j =>
              simp only [List.get?] at hj
              exact List.mem_cons_of_mem _ (ih hrest hj ht)
      · rw [if_neg hb] at h
        cases j with
        | zero =>
          simp only [List.get?] at hj
          cases hj
          rw [pyIn] at hin
          have hany := getKey_any ht
          rw [hany] at hin
          cases hin
          exact absurd rfl hb
        | succ j =>
          simp only [List.get?] at hj
          exact ih h hj ht

theorem roomTitles_ok_mem :
    ∀ {data : List JVal} {ts : List JVal}, roomTitles data = .ok ts →
      ∀ {i j : Nat} {kvs : List (String × JVal)} {tv : JVal},
        inputEntryAt data i j = some (.obj kvs) → getKey kvs "title" = some tv → tv ∈ ts := by
  intro data
  induction data with
  | nil =>
    intro ts h i j kvs tv hE ht
    obtain ⟨rkvs, es, hg, _, _⟩ := inputEntryAt_elim hE
    simp at hg
  | cons room rest ih =>
    intro ts h i j kvs tv hE ht
    rw [roomTitles] at h
    split at h
    · cases h
    · rename_i ev hev
      split at h
      · cases h
      · rename_i es hit
        split at h
        · cases h
        · rename_i ts₁ hts₁
          split at h
          · cases h
          · rename_i ts₂ hts₂
            cases h
            cases i with
            | zero =>
              obtain ⟨rkvs, es', hg, hit', hj⟩ := inputEntryAt_elim hE
              simp only [List.get?] at hg
              cases hg
              have hev' : pyDictGet (.obj rkvs) "entries" (.arr []) =
                  .ok ((getKey rkvs "entries").getD (.arr [])) := rfl
              rw [hev'] at hev
              cases hev
              rw [hit'] at hit
              cases hit
              exact List.mem_append_left _ (entryTitles_ok_mem hts₁ hj ht)
            | succ i =>
              have hE' : inputEntryAt rest i j = some (.obj kvs) := hE
              exact List.mem_append_right _ (ih hts₂ hE' ht)

theorem inputEntriesAt_intro {data : List JVal} {i : Nat} {rkvs : List (String × JVal)}
    {es : List JVal} (hg : data.get? i = some (.obj rkvs))
    (hit : pyIter ((getKey rkvs "entries").getD (.arr [])) = .ok es) :
    inputEntriesAt data i = some es := by
  rw [inputEntriesAt, hg]
  simp only [hit]

theorem anonRooms_out_entries {m : List (JVal × String)} {data out : List JVal} {i : Nat}
    {rkvs : List (String × JVal)} {es : List JVal}
    (hrooms : anonRooms m data = .ok out)
    (hg : data.get? i = some (.obj rkvs))
    (hit : pyIter ((getKey rkvs "entries").getD (.arr [])) = .ok es) :
    ∃ nes, anonEntries m es = .ok nes ∧ outEntriesAt out i = some nes ∧
      out.get? i = some (.obj [("room", (getKey rkvs "room").getD .null),
        ("entries", .arr nes)]) := by
  obtain ⟨o, ho, hro⟩ := anonRooms_get? hrooms hg
  obtain ⟨kvs', es', nes, hk, hit', hes, hor⟩ := anonRoom_ok_elim hro
  injection hk with hk2
  subst hk2
  rw [hit'] at hit
  injection hit with hit2
  subst hit2
  subst hor
  refine ⟨nes, hes, ?_, ho⟩
  rw [outEntriesAt, ho]
  rfl

/-- C4: when anonymize succeeds, the output contains exactly one room per
input room in the same order, and for each room exactly one entry per input
entry: the output length equals the input length, and the entry list of each
output room has the length of the corresponding input room's iterated entry
list. -/
theorem claim_C4_counts {data out : List JVal} (h : anonymize data = .ok out) :
    out.length = data.length ∧
    ∀ i r, data.get? i = some r → ∃ es nes,
      inputEntriesAt data i = some es ∧ outEntriesAt out i = some nes ∧
      nes.length = es.length := by
  obtain ⟨ts, m, hts, hm, hrooms⟩ := anonymize_ok_elim h
  refine ⟨anonRooms_length hrooms, ?_⟩
  intro i r hi
  obtain ⟨o, ho, hro⟩ := anonRooms_get? hrooms hi
  obtain ⟨kvs, es, nes, hk, hit, hes, hor⟩ := anonRoom_ok_elim hro
  subst hk
  obtain ⟨nes', hes', hout, _⟩ := anonRooms_out_entries hrooms hi hit
  rw [hes] at hes'
  injection hes' with hcast
  subst hcast
  exact ⟨es, nes, inputEntriesAt_intro hi hit, hout, anonEntries_length hes⟩

/-- Witness for C4 on a concrete one-room document with one entry. -/
theorem claim_C4_counts_witness :
    ([JVal.obj [("room", JVal.str "101"),
        ("entries", JVal.arr [JVal.obj [("title", JVal.str "A")]])]] : List JVal).length =
      ([JVal.obj [("room", JVal.str "101"),
        ("entries", JVal.arr [JVal.obj [("title", JVal.str "T")]])]] : List JVal).length ∧
    ∃ es nes,
      inputEntriesAt [JVal.obj [("room", JVal.str "101"),
        ("entries", JVal.arr [JVal.obj [("title", JVal.str "T")]])]] 0 = some es ∧
      outEntriesAt [JVal.obj [("room", JVal.str "101"),
        ("entries", JVal.arr [JVal.obj [("title", JVal.str "A")]])]] 0 = some nes ∧
      nes.length = es.length := by
  have h := claim_C4_counts
    (by decide : anonymize [JVal.obj [("room", JVal.str "101"),
        ("entries", JVal.arr [JVal.obj [("title", JVal.str "T")]])]] =
      .ok [JVal.obj [("room", JVal.str "101"),
        ("entries", JVal.arr [JVal.obj [("title", JVal.str "A")]])]])
  exact ⟨h.1, h.2 0 _ rfl⟩

/-- C10: every output room record has exactly the two keys room and entries,
in that order; the room value is the input room's `room` field with default
None, so an input room with no `room` key yields an output room whose room
field is present and equal to null. -/
theorem claim_C10_room_shape {data out : List JVal} (h : anonymize data = .ok out) :
    ∀ i r, data.get? i = some r → ∃ kvs nes,
      r = .obj kvs ∧
      out.get? i = some (.obj [("room", (getKey kvs "room").getD .null),
        ("entries", .arr nes)]) ∧
      (getKey kvs "room" = none →
        out.get? i = some (.obj [("room", JVal.null), ("entries", .arr nes)])) := by
  obtain ⟨ts, m, hts, hm, hrooms⟩ := anonymize_ok_elim h
  intro i r hi
  obtain ⟨o, ho, hro⟩ := anonRooms_get? hrooms hi
  obtain ⟨kvs, es, nes, hk, hit, hes, hor⟩ := anonRoom_ok_elim hro
  subst hk
  refine ⟨kvs, nes, rfl, by rw [ho, hor], ?_⟩
  intro hnone
  rw [ho, hor, hnone]
  rfl

/-- Witness for C10 on a room record with no room key. -/
theorem claim_C10_room_shape_witness :
    ∃ kvs nes,
      (JVal.obj [("entries", JVal.arr [])]) = JVal.obj kvs ∧
      ([JVal.obj [("room", JVal.null), ("entries", JVal.arr [])]] : List JVal).get? 0 =
        some (.obj [("room", (getKey kvs "room").getD .null), ("entries", .arr nes)]) ∧
      (getKey kvs "room" = none →
        ([JVal.obj [("room", JVal.null), ("entries", JVal.arr [])]] : List JVal).get? 0 =
          some (.obj [("room", JVal.null), ("entries", .arr nes)])) :=
  claim_C10_room_shape
    (by decide : anonymize [JVal.obj [("entries", JVal.arr [])]] =
      .ok [JVal.obj [("room", JVal.null), ("entries", JVal.arr [])]]) 0 _ rfl

/-- C8 (amended): a room record that is a mapping without an `entries` field,
or with an empty entries list, is handled leniently: the output room exists
and carries `entries: []`.  (The original claim also asserted leniency for
entries that are not mapping-shaped objects; that part is refuted
separately by a concrete counterexample.) -/
theorem claim_C8_lenient_entries {data out : List JVal} (h : anonymize data = .ok out) :
    ∀ i kvs, data.get? i = some (.obj kvs) →
      (getKey kvs "entries" = none ∨ getKey kvs "entries" = some (.arr [])) →
      out.get? i = some (.obj [("room", (getKey kvs "room").getD .null),
        ("entries", .arr [])]) := by
  obtain ⟨ts, m, hts, hm, hrooms⟩ := anonymize_ok_elim h
  intro i kvs hi hent
  have hit : pyIter ((getKey kvs "entries").getD (.arr [])) = .ok [] := by
    rcases hent with hent | hent <;> rw [hent] <;> rfl
  obtain ⟨nes, hes, hout, ho⟩ := anonRooms_out_entries hrooms hi hit
  cases hes
  exact ho

/-- Counterexample for C8 as stated: an entry that is not a mapping-shaped
object is not tolerated; a room whose entries list contains the number 5
makes anonymize raise a TypeError (Python: `"title" in 5` raises), instead
of being handled leniently. -/
theorem claim_C8_counterexample :
    anonymize [JVal.obj [("room", JVal.null), ("entries", JVal.arr [JVal.num 5])]] =
      .error .typeError := by
  decide

/-- Witness for C8 (amended): a room without an entries key and a room with
an empty entries list both yield entries `[]`. -/
theorem claim_C8_lenient_entries_witness :
    ([JVal.obj [("room", JVal.str "a"), ("entries", JVal.arr [])],
      JVal.obj [("room", JVal.null), ("entries", JVal.arr [])]] : List JVal).get? 0 =
      some (.obj [("room", (getKey [("room", JVal.str "a")] "room").getD .null),
        ("entries", .arr [])]) ∧
    ([JVal.obj [("room", JVal.str "a"), ("entries", JVal.arr [])],
      JVal.obj [("room", JVal.null), ("entries", JVal.arr [])]] : List JVal).get? 1 =
      some (.obj [("room", (getKey [("room", JVal.null), ("entries", JVal.arr [])] "room").getD .null),
        ("entries", .arr [])]) := by
  have h := claim_C8_lenient_entries
    (by decide : anonymize [JVal.obj [("room", JVal.str "a")],
        JVal.obj [("room", JVal.null), ("entries", JVal.arr [])]] =
      .ok [JVal.obj [("room", JVal.str "a"), ("entries", JVal.arr [])],
        JVal.obj [("room", JVal.null), ("entries", JVal.arr [])]])
  exact ⟨h 0 [("room", JVal.str "a")] rfl (Or.inl rfl),
    h 1 [("room", JVal.null), ("entries", JVal.arr [])] rfl (Or.inr rfl)⟩

/-- C5 (amended): for every entry that is a mapping, every key other than
`title` and its value appear structurally unchanged in the corresponding
output entry (stated as equality of the field lists with title removed,
which preserves order and values); and, provided every collected title value
is a string (the spec's contract for titles), an entry with no `title` key
produces an output entry with no `title` key added.  The proviso is
necessary: a null title elsewhere in the document makes the anonymizer add
a title key to an entry that had none, as a concrete counterexample shows. -/
theorem claim_C5_entry_frame {data out : List JVal} (h : anonymize data = .ok out) :
    ∀ i j kvs, inputEntryAt data i j = some (.obj kvs) →
      ∃ nkvs, outEntryAt out i j = some (.obj nkvs) ∧
        nkvs.filter (fun p => !(p.1 == "title")) = kvs.filter (fun p => !(p.1 == "title")) ∧
        ((∀ ts', roomTitles data = .ok ts' → ∀ t ∈ ts', t.isStr = true) →
          getKey kvs "title" = none → getKey nkvs "title" = none) := by
  obtain ⟨ts, m, hts, hm, hrooms⟩ := anonymize_ok_elim h
  intro i j kvs hE
  obtain ⟨rkvs, es, hg, hit, hj⟩ := inputEntryAt_elim hE
  obtain ⟨nes, hes, hout, ho⟩ := anonRooms_out_entries hrooms hg hit
  obtain ⟨ne, hj', hee⟩ := anonEntries_get? hes hj
  obtain ⟨kvs₂, hk2, hne⟩ := anonEntry_ok_elim hee
  injection hk2 with hk2'
  subst hk2'
  subst hne
  refine ⟨applyTitle m kvs, ?_, applyTitle_filter m kvs, ?_⟩
  · rw [outEntryAt, hout]
    exact hj'
  · intro hstr hnone
    have hkeys : ∀ p ∈ m, p.1.isStr = true :=
      fun p hp => build_mapping_key_isStr hm (hstr ts hts) hp
    rw [applyTitle, hnone]
    simp only [Option.getD_none]
    rw [find?_null_of_keys_str hkeys]
    exact hnone

/-- Counterexample for C5 as stated: in a document where another entry
carries `title: null`, an entry with no `title` key receives a `title` key
in the output (entry.get returns None, and None is a key of the mapping), so
the missing-title passthrough fails without the string-title proviso. -/
theorem claim_C5_counterexample :
    anonymize [JVal.obj [("room", JVal.null),
        ("entries", JVal.arr [JVal.obj [("title", JVal.null)],
          JVal.obj [("note", JVal.num 1)]])]] =
      .ok [JVal.obj [("room", JVal.null),
        ("entries", JVal.arr [JVal.obj [("title", JVal.str "A")],
          JVal.obj [("note", JVal.num 1), ("title", JVal.str "A")]])]] ∧
    inputEntryAt [JVal.obj [("room", JVal.null),
        ("entries", JVal.arr [JVal.obj [("title", JVal.null)],
          JVal.obj [("note", JVal.num 1)]])]] 0 1 = some (.obj [("note", JVal.num 1)]) ∧
    getKey [("note", JVal.num 1)] "title" = none ∧
    outTitleAt [JVal.obj [("room", JVal.null),
        ("entries", JVal.arr [JVal.obj [("title", JVal.str "A")],
          JVal.obj [("note", JVal.num 1), ("title", JVal.str "A")]])]] 0 1 =
      some (.str "A") := by
  decide

/-- Witness for C5 (amended) on a document whose titles are all strings: the
entry without a title key passes through with its fields intact and no title
key added. -/
theorem claim_C5_entry_frame_witness :
    ∃ nkvs, outEntryAt [JVal.obj [("room", JVal.null),
        ("entries", JVal.arr [JVal.obj [("title", JVal.str "A")],
          JVal.obj [("note", JVal.num 1)]])]] 0 1 = some (.obj nkvs) ∧
      nkvs.filter (fun p => !(p.1 == "title")) =
        ([("note", JVal.num 1)] : List (String × JVal)).filter (fun p => !(p.1 == "title")) ∧
      getKey nkvs "title" = none := by
  obtain ⟨nkvs, h1, h2, h3⟩ := claim_C5_entry_frame
    (by decide : anonymize [JVal.obj [("room", JVal.null),
        ("entries", JVal.arr [JVal.obj [("title", JVal.str "T")],
          JVal.obj [("note", JVal.num 1)]])]] =
      .ok [JVal.obj [("room", JVal.null),
        ("entries", JVal.arr [JVal.obj [("title", JVal.str "A")],
          JVal.obj [("note", JVal.num 1)]])]]) 0 1 [("note", JVal.num 1)] (by decide)
  refine ⟨nkvs, h1, h2, h3 ?_ rfl⟩
  intro ts' hts'
  have hcomp : roomTitles [JVal.obj [("room", JVal.null),
      ("entries", JVal.arr [JVal.obj [("title", JVal.str "T")],
        JVal.obj [("note", JVal.num 1)]])]] = .ok [JVal.str "T"] := by decide
  rw [hcomp] at hts'
  injection hts' with h'
  subst h'
  decide

/-- C6 (amended): entry-level fields other than `title` are passed through
unchanged (order and values preserved), but room-level records are not an
opaque passthrough: every output room is rebuilt with exactly the keys
`room` and `entries`, so any other room-level field is dropped
(a concrete counterexample shows a dropped field). -/
theorem claim_C6_field_passthrough {data out : List JVal} (h : anonymize data = .ok out) :
    (∀ i j kvs, inputEntryAt data i j = some (.obj kvs) →
      ∃ nkvs, outEntryAt out i j = some (.obj nkvs) ∧
        nkvs.filter (fun p => !(p.1 == "title")) = kvs.filter (fun p => !(p.1 == "title"))) ∧
    (∀ i r, data.get? i = some r → ∃ kvs nes, r = .obj kvs ∧
      out.get? i = some (.obj [("room", (getKey kvs "room").getD .null),
        ("entries", .arr nes)])) := by
  obtain ⟨ts, m, hts, hm, hrooms⟩ := anonymize_ok_elim h
  constructor
  · intro i j kvs hE
    obtain ⟨rkvs, es, hg, hit, hj⟩ := inputEntryAt_elim hE
    obtain ⟨nes, hes, hout, ho⟩ := anonRooms_out_entries hrooms hg hit
    obtain ⟨ne, hj', hee⟩ := anonEntries_get? hes hj
    obtain ⟨kvs₂, hk2, hne⟩ := anonEntry_ok_elim hee
    injection hk2 with hk2'
    subst hk2'
    subst hne
    refine ⟨applyTitle m kvs, ?_, applyTitle_filter m kvs⟩
    rw [outEntryAt, hout]
    exact hj'
  · intro i r hi
    obtain ⟨o, ho, hro⟩ := anonRooms_get? hrooms hi
    obtain ⟨kvs, es, nes, hk, hit, hes, hor⟩ := anonRoom_ok_elim hro
    subst hk
    exact ⟨kvs, nes, rfl, by rw [ho, hor]⟩

/-- Counterexample for C6 as stated: a room-level field other than `room` and
`entries` (here `floor`) is dropped by the anonymizer, so records are not
mirrored 1:1 at the room level. -/
theorem claim_C6_counterexample :
    anonymize [JVal.obj [("room", JVal.str "101"), ("floor", JVal.num 3),
        ("entries", JVal.arr [])]] =
      .ok [JVal.obj [("room", JVal.str "101"), ("entries", JVal.arr [])]] ∧
    getKey [("room", JVal.str "101"), ("floor", JVal.num 3), ("entries", JVal.arr [])]
      "floor" = some (JVal.num 3) ∧
    getKey [("room", JVal.str "101"), ("entries", JVal.arr [])] "floor" = none := by
  decide

/-- Witness for C6 (amended) on a concrete document. -/
theorem claim_C6_field_passthrough_witness :
    (∃ nkvs, outEntryAt [JVal.obj [("room", JVal.str "r"),
        ("entries", JVal.arr [JVal.obj [("title", JVal.str "A"), ("note", JVal.str "x")]])]]
        0 0 = some (.obj nkvs) ∧
      nkvs.filter (fun p => !(p.1 == "title")) =
        ([("title", JVal.str "T"), ("note", JVal.str "x")] : List (String × JVal)).filter
          (fun p => !(p.1 == "title"))) ∧
    (∃ kvs nes, (JVal.obj [("room", JVal.str "r"),
        ("entries", JVal.arr [JVal.obj [("title", JVal.str "T"), ("note", JVal.str "x")]])]) =
        JVal.obj kvs ∧
      ([JVal.obj [("room", JVal.str "r"),
        ("entries", JVal.arr [JVal.obj [("title", JVal.str "A"), ("note", JVal.str "x")]])]] :
          List JVal).get? 0 =
        some (.obj [("room", (getKey kvs "room").getD .null), ("entries", .arr nes)])) := by
  have h := claim_C6_field_passthrough
    (by decide : anonymize [JVal.obj [("room", JVal.str "r"),
        ("entries", JVal.arr [JVal.obj [("title", JVal.str "T"), ("note", JVal.str "x")]])]] =
      .ok [JVal.obj [("room", JVal.str "r"),
        ("entries", JVal.arr [JVal.obj [("title", JVal.str "A"), ("note", JVal.str "x")]])]])
  exact ⟨h.1 0 0 [("title", JVal.str "T"), ("note", JVal.str "x")] (by decide),
    h.2 0 _ rfl⟩

/-- C1: any two entries, in any rooms, whose title values are the identical
string receive the identical label string in the output of anonymize. -/
theorem claim_C1_label_consistency {data out : List JVal} (h : anonymize data = .ok out)
    {i j i' j' : Nat} {kvs kvs' : List (String × JVal)} {t : String}
    (h1 : inputEntryAt data i j = some (.obj kvs))
    (ht1 : getKey kvs "title" = some (.str t))
    (h2 : inputEntryAt data i' j' = some (.obj kvs'))
    (ht2 : getKey kvs' "title" = some (.str t)) :
    ∃ lb : String, outTitleAt out i j = some (.str lb) ∧
      outTitleAt out i' j' = some (.str lb) := by
  obtain ⟨ts, m, hts, hm, hrooms⟩ := anonymize_ok_elim h
  have hmem : JVal.str t ∈ ts := roomTitles_ok_mem hts h1 ht1
  obtain ⟨lb, hf⟩ := build_mapping_find hm hmem
  have key : ∀ {i₀ j₀ : Nat} {kvs₀ : List (String × JVal)},
      inputEntryAt data i₀ j₀ = some (.obj kvs₀) → getKey kvs₀ "title" = some (.str t) →
      outTitleAt out i₀ j₀ = some (.str lb) := by
    intro i₀ j₀ kvs₀ hE ht
    obtain ⟨rkvs, es, hg, hit, hj⟩ := inputEntryAt_elim hE
    obtain ⟨nes, hes, hout, ho⟩ := anonRooms_out_entries hrooms hg hit
    obtain ⟨ne, hj', hee⟩ := anonEntries_get? hes hj
    obtain ⟨kvs₂, hk2, hne⟩ := anonEntry_ok_elim hee
    injection hk2 with hk2'
    subst hk2'
    subst hne
    have hoe : outEntryAt out i₀ j₀ = some (.obj (applyTitle m kvs₀)) := by
      rw [outEntryAt, hout]
      exact hj'
    rw [outTitleAt, hoe]
    exact applyTitle_title_mapped ht hf
  exact ⟨lb, key h1 ht1, key h2 ht2⟩

/-- Witness for C1 on the spec's worked example: the two "Acme Corp" entries
receive one identical label. -/
theorem claim_C1_label_consistency_witness :
    ∃ lb : String,
      outTitleAt [JVal.obj [("room", JVal.str "101"), ("entries", JVal.arr
        [JVal.obj [("title", JVal.str "A"), ("note", JVal.str "x")],
         JVal.obj [("title", JVal.str "A")],
         JVal.obj [("title", JVal.str "B")]])]] 0 0 = some (.str lb) ∧
      outTitleAt [JVal.obj [("room", JVal.str "101"), ("entries", JVal.arr
        [JVal.obj [("title", JVal.str "A"), ("note", JVal.str "x")],
         JVal.obj [("title", JVal.str "A")],
         JVal.obj [("title", JVal.str "B")]])]] 0 1 = some (.str lb) :=
  claim_C1_label_consistency
    (by decide : anonymize [JVal.obj [("room", JVal.str "101"), ("entries", JVal.arr
        [JVal.obj [("title", JVal.str "Acme Corp"), ("note", JVal.str "x")],
         JVal.obj [("title", JVal.str "Acme Corp")],
         JVal.obj [("title", JVal.str "Beta LLC")]])]] =
      .ok [JVal.obj [("room", JVal.str "101"), ("entries", JVal.arr
        [JVal.obj [("title", JVal.str "A"), ("note", JVal.str "x")],
         JVal.obj [("title", JVal.str "A")],
         JVal.obj [("title", JVal.str "B")]])]])
    (by decide : inputEntryAt [JVal.obj [("room", JVal.str "101"), ("entries", JVal.arr
        [JVal.obj [("title", JVal.str "Acme Corp"), ("note", JVal.str "x")],
         JVal.obj [("title", JVal.str "Acme Corp")],
         JVal.obj [("title", JVal.str "Beta LLC")]])]] 0 0 =
      some (.obj [("title", JVal.str "Acme Corp"), ("note", JVal.str "x")]))
    (by decide : getKey [("title", JVal.str "Acme Corp"), ("note", JVal.str "x")] "title" =
      some (.str "Acme Corp"))
    (by decide : inputEntryAt [JVal.obj [("room", JVal.str "101"), ("entries", JVal.arr
        [JVal.obj [("title", JVal.str "Acme Corp"), ("note", JVal.str "x")],
         JVal.obj [("title", JVal.str "Acme Corp")],
         JVal.obj [("title", JVal.str "Beta LLC")]])]] 0 1 =
      some (.obj [("title", JVal.str "Acme Corp")]))
    (by decide : getKey [("title", JVal.str "Acme Corp")] "title" = some (.str "Acme Corp"))

/-- C7: when the input path does not exist in the file system, the run
terminates with the fatal user error naming the path, with a nonzero exit
status, and the file system is unchanged (no output file is created or
written before termination). -/
theorem claim_C7_missing_input (fs : List (String × List JVal)) (argv : List String)
    (h : findFile fs ((argv.get? 1).getD "reserves.json") = none) :
    mainRun fs argv =
      (.error (.exitMsg ("入力ファイルが見つかりません: " ++ (argv.get? 1).getD "reserves.json")),
        fs) ∧
    ∀ er fs', mainRun fs argv = (.error er, fs') →
      er.exitCode ≠ 0 ∧ fs' = fs := by
  have hmain : mainRun fs argv =
      (.error (.exitMsg ("入力ファイルが見つかりません: " ++ (argv.get? 1).getD "reserves.json")),
        fs) := by
    rw [mainRun, load_json, h]
  refine ⟨hmain, ?_⟩
  intro er fs' h'
  rw [hmain] at h'
  injection h' with h1 h2
  subst h2
  refine ⟨?_, rfl⟩
  rw [RunError.exitCode]
  omega

/-- Witness for C7: invoking on an empty file system with a missing path. -/
theorem claim_C7_missing_input_witness :
    mainRun [("other.json", [])] ["prog", "missing.json", "out.json"] =
      (.error (.exitMsg ("入力ファイルが見つかりません: " ++ "missing.json")),
        [("other.json", [])]) ∧
    (RunError.exitMsg ("入力ファイルが見つかりません: " ++ "missing.json")).exitCode ≠ 0 := by
  have h := claim_C7_missing_input [("other.json", [])] ["prog", "missing.json", "out.json"]
    (by decide)
  exact ⟨h.1, (h.2 _ _ h.1).1⟩
